import Mathlib

/-!
Verification of the question-understanding and answer-synthesis core of the
PartD_GroupProject repository (`agents/processor.py`, `agents/processor_LLM.py`,
`agents/answerer.py`, `utils/llm_intent.py`).

The Python code is shallowly embedded: strings are Lean `String`s (Python
indexes and slices strings by code point, as Lean's `String.data` does),
Python `dict`s that the code iterates over are association lists in insertion
order, `None`-able values are `Option`s, and Python floats are modelled as
rationals (the confidence arithmetic of the code — sums, `min`, `max` of
small constants — is exact in either representation at every point a claim
inspects).  Library calls (`unicodedata.normalize`, `str.strip`, `str.lower`,
`json.loads`) are modelled on the fragment of their behaviour the repository
exercises, as documented at each definition.
-/

/-! ## Python string primitives -/

/-- The whitespace set of Python's argument-less `str.strip` / `str.split`,
restricted to the characters that occur in this development: the ASCII
whitespace characters together with NBSP (U+00A0).  (Real Python strips the
full Unicode whitespace set; every character this file ever feeds to `strip`
is either in the set below or provably non-whitespace.) -/
def pyIsSpace (c : Char) : Bool :=
  c.toNat = 0x20 || c.toNat = 0x09 || c.toNat = 0x0a || c.toNat = 0x0d ||
  c.toNat = 0x0b || c.toNat = 0x0c || c.toNat = 0xa0

/-- Python `str.lower`, character-wise.  ASCII uppercase letters map to their
lowercase forms; every other character appearing in this development is fixed
by `str.lower` (U+00B4 and U+0301 are caseless), so the model is the identity
there. -/
def pyLowerChar (c : Char) : Char :=
  if 65 ≤ c.toNat ∧ c.toNat ≤ 90 then Char.ofNat (c.toNat + 32) else c

def pyLowerList (l : List Char) : List Char := l.map pyLowerChar

/-- Python's `s.strip()` on a character list: drop whitespace from the right
end (via `reverse`), then from the left. -/
def pyStripList (l : List Char) : List Char :=
  List.dropWhile pyIsSpace ((List.dropWhile pyIsSpace l.reverse).reverse)

/-- The NFKC mapping of a single character, on the fragment of the Unicode
data this development touches: U+00B4 ACUTE ACCENT has compatibility
decomposition U+0020 U+0301 (and the pair does not recompose); ASCII and
U+0301 are NFKC-fixed.  All other characters are modelled as fixed points. -/
def nfkcChar (c : Char) : List Char :=
  if c.toNat = 0xb4 then [' ', Char.ofNat 0x301] else [c]

/-- `unicodedata.normalize("NFKC", s)` on the modelled fragment: no character
pair this development produces recomposes, so NFKC is the concatenation of the
per-character maps. -/
def nfkcList (l : List Char) : List Char := l.flatMap nfkcChar

/-- `ProcessorAgent._normalise` (identical in `ProcessorAgent_LLM`):
`text.strip().lower()` followed by `unicodedata.normalize("NFKC", ...)`. -/
def normalise (s : String) : String :=
  String.mk (nfkcList (pyLowerList (pyStripList s.data)))

/-- `answerer._norm`: `(s or "").strip().lower()` (no NFKC step). -/
def pyNorm (s : String) : String := String.mk (pyLowerList (pyStripList s.data))

/-- Python's substring test `needle in hay` on character lists. -/
def pySubList (needle : List Char) : List Char → Bool
  | [] => needle.isPrefixOf []
  | c :: rest => needle.isPrefixOf (c :: rest) || pySubList needle rest

/-- Python's `needle in hay` on strings. -/
def pySub (needle hay : String) : Bool := pySubList needle.data hay.data

/-- Python `s[:n]`: slicing counts code points. -/
def pyTake (s : String) (n : Nat) : String := String.mk (s.data.take n)

/-- Python's argument-less `str.split`: split on whitespace runs, dropping
empty pieces. -/
def pySplitWs (s : String) : List String :=
  go s.data []
where
  go : List Char → List Char → List String
  | [], cur => if cur.isEmpty then [] else [String.mk cur.reverse]
  | c :: rest, cur =>
      if pyIsSpace c then
        (if cur.isEmpty then go rest [] else String.mk cur.reverse :: go rest [])
      else go rest (c :: cur)

/-! ## Generic list lemmas for `strip` -/

theorem dropWhile_dropWhile (p : α → Bool) (l : List α) :
    List.dropWhile p (List.dropWhile p l) = List.dropWhile p l := by
  induction l with
  | nil => rfl
  | cons a t ih =>
      by_cases h : p a
      · simp [List.dropWhile, h, ih]
      · simp [List.dropWhile, h]

theorem head?_dropWhile (p : α → Bool) (l : List α) :
    ∀ a, (List.dropWhile p l).head? = some a → ¬ p a := by
  induction l with
  | nil => intro a h; simp [List.dropWhile] at h
  | cons b t ih =>
      intro a h
      by_cases hb : p b
      · exact ih a (by simpa [List.dropWhile, hb] using h)
      · simp [List.dropWhile, hb] at h
        simpa [← h] using hb

theorem dropWhile_eq_self_of_head (p : α → Bool) (l : List α)
    (h : ∀ a, l.head? = some a → ¬ p a) : List.dropWhile p l = l := by
  cases l with
  | nil => rfl
  | cons a t =>
      have : ¬ p a := h a rfl
      simp [List.dropWhile, this]

theorem getLast?_dropWhile (p : α → Bool) (l : List α)
    (h : List.dropWhile p l ≠ []) :
    (List.dropWhile p l).getLast? = l.getLast? := by
  induction l with
  | nil => simp [List.dropWhile] at h
  | cons a t ih =>
      by_cases ha : p a
      · have hd : List.dropWhile p (a :: t) = List.dropWhile p t := by
          simp [List.dropWhile, ha]
        rw [hd] at h ⊢
        cases ht : t with
        | nil => rw [ht] at h; simp [List.dropWhile] at h
        | cons b bs =>
            rw [ht] at h ih
            rw [ih h, List.getLast?_cons_cons]
      · simp [List.dropWhile, ha]

theorem pyStripList_idem (l : List Char) :
    pyStripList (pyStripList l) = pyStripList l := by
  unfold pyStripList
  set A := List.dropWhile pyIsSpace l.reverse with hA
  set B := List.dropWhile pyIsSpace A.reverse with hB
  have hBrev : List.dropWhile pyIsSpace B.reverse = B.reverse := by
    apply dropWhile_eq_self_of_head
    intro a ha
    rcases hBe : B with _ | ⟨b, bs⟩
    · rw [hBe] at ha; simp at ha
    · have hBne : B ≠ [] := by rw [hBe]; simp
      have h1 : B.reverse.head? = B.getLast? := List.head?_reverse B
      have h2 : B.getLast? = A.reverse.getLast? :=
        hB ▸ getLast?_dropWhile _ _ (hB ▸ hBne)
      have h3 : A.reverse.getLast? = A.head? := by
        rw [← List.head?_reverse, List.reverse_reverse]
      have hAne : A ≠ [] := by
        intro he
        rw [hB, he] at hBne
        simp [List.dropWhile] at hBne
      rcases hAe : A with _ | ⟨a0, as⟩
      · exact absurd hAe hAne
      · have h4 : B.reverse.head? = some a0 := by
          rw [h1, h2, h3, hAe]; rfl
        rw [ha] at h4
        have haa : a = a0 := by injection h4
        subst haa
        exact head?_dropWhile pyIsSpace l.reverse a (by rw [← hA, hAe]; rfl)
  rw [hBrev, List.reverse_reverse, hB]
  exact dropWhile_dropWhile _ _

theorem toNat_ofNat_of_lt {n : Nat} (h : n < 0xd800) : (Char.ofNat n).toNat = n := by
  have hv : n.isValidChar := Or.inl h
  simp only [Char.toNat, Char.ofNat, hv, dite_true, Char.ofNatAux, UInt32.toNat]
  rfl

theorem toNat_lowerChar_of_upper (c : Char) (h : 65 ≤ c.toNat ∧ c.toNat ≤ 90) :
    (pyLowerChar c).toNat = c.toNat + 32 := by
  unfold pyLowerChar
  rw [if_pos h]
  exact toNat_ofNat_of_lt (by omega)

theorem pyLowerChar_eq_self (c : Char) (h : ¬ (65 ≤ c.toNat ∧ c.toNat ≤ 90)) :
    pyLowerChar c = c := by
  unfold pyLowerChar
  rw [if_neg h]

theorem pyIsSpace_lower (c : Char) : pyIsSpace (pyLowerChar c) = pyIsSpace c := by
  by_cases h : 65 ≤ c.toNat ∧ c.toNat ≤ 90
  · have hl := toNat_lowerChar_of_upper c h
    have h1 := h.1
    have h2 := h.2
    have ha : pyIsSpace (pyLowerChar c) = false := by
      unfold pyIsSpace
      rw [hl]
      simp only [Bool.or_eq_false_iff, decide_eq_false_iff_not]
      omega
    have hb : pyIsSpace c = false := by
      unfold pyIsSpace
      simp only [Bool.or_eq_false_iff, decide_eq_false_iff_not]
      omega
    rw [ha, hb]
  · rw [pyLowerChar_eq_self c h]

theorem pyStripList_map_lower (l : List Char) :
    pyStripList (pyLowerList l) = pyLowerList (pyStripList l) := by
  unfold pyStripList pyLowerList
  have hp : (pyIsSpace ∘ pyLowerChar) = pyIsSpace := by
    funext c; exact pyIsSpace_lower c
  rw [← List.map_reverse, List.dropWhile_map, ← List.map_reverse,
    List.dropWhile_map, hp]

theorem pyLowerChar_idem (c : Char) : pyLowerChar (pyLowerChar c) = pyLowerChar c := by
  by_cases h : 65 ≤ c.toNat ∧ c.toNat ≤ 90
  · have hl := toNat_lowerChar_of_upper c h
    have hrange : ¬ (65 ≤ (pyLowerChar c).toNat ∧ (pyLowerChar c).toNat ≤ 90) := by
      rw [hl]; omega
    rw [pyLowerChar_eq_self (pyLowerChar c) hrange]
  · rw [pyLowerChar_eq_self c h]
    exact pyLowerChar_eq_self c h

theorem pyLowerList_idem (l : List Char) :
    pyLowerList (pyLowerList l) = pyLowerList l := by
  unfold pyLowerList
  rw [List.map_map]
  congr 1
  funext c
  exact pyLowerChar_idem c

theorem nfkcList_ascii (l : List Char) (h : ∀ c ∈ l, c.toNat ≤ 127) :
    nfkcList l = l := by
  induction l with
  | nil => rfl
  | cons a t ih =>
      have ha : a.toNat ≤ 127 := h a (by simp)
      have haval : ¬ a.toNat = 0xb4 := by omega
      unfold nfkcList at *
      simp only [List.flatMap_cons]
      rw [ih (fun c hc => h c (by simp [hc]))]
      unfold nfkcChar
      simp [haval]

/-! ## C3: normaliser idempotence -/

theorem pyStripList_sublist (l : List Char) : (pyStripList l).Sublist l := by
  unfold pyStripList
  have h1 : (List.dropWhile pyIsSpace l.reverse).Sublist l.reverse :=
    List.dropWhile_sublist _
  have h2 : (List.dropWhile pyIsSpace l.reverse).reverse.Sublist l :=
    by simpa using h1.reverse
  exact (List.dropWhile_sublist _).trans h2

theorem pyLowerChar_ascii (c : Char) (h : c.toNat ≤ 127) :
    (pyLowerChar c).toNat ≤ 127 := by
  by_cases hc : 65 ≤ c.toNat ∧ c.toNat ≤ 90
  · rw [toNat_lowerChar_of_upper c hc]; omega
  · rw [pyLowerChar, if_neg hc]; exact h

/-- C3 (amended): the text normaliser `strip → lower → NFKC` is idempotent on
ASCII input. -/
theorem normalise_idem_ascii (x : String) (h : ∀ c ∈ x.data, c.toNat ≤ 127) :
    normalise (normalise x) = normalise x := by
  unfold normalise
  have hstrip_ascii : ∀ c ∈ pyStripList x.data, c.toNat ≤ 127 := by
    intro c hc
    exact h c ((pyStripList_sublist x.data).mem hc)
  have hlow_ascii : ∀ c ∈ pyLowerList (pyStripList x.data), c.toNat ≤ 127 := by
    intro c hc
    unfold pyLowerList at hc
    rcases List.mem_map.mp hc with ⟨a, ha, rfl⟩
    exact pyLowerChar_ascii a (hstrip_ascii a ha)
  rw [nfkcList_ascii _ hlow_ascii]
  simp only [String.mk]
  rw [pyStripList_map_lower, pyLowerList_idem, pyStripList_idem]
  rw [nfkcList_ascii _ hlow_ascii]

/-- C3 witness: idempotence at the concrete ASCII input `"  Hello World  "`. -/
theorem normalise_idem_ascii_witness :
    normalise (normalise "  Hello World  ") = normalise "  Hello World  " :=
  normalise_idem_ascii "  Hello World  " (by decide)

/-- C3 counterexample: the normaliser is NOT idempotent on all input.  On
U+00B4 (ACUTE ACCENT) the NFKC step emits a leading space (U+00B4 has
compatibility decomposition U+0020 U+0301), which only the second pass
strips: `normalise "´" = " ́"` but `normalise (normalise "´") = "́"`. -/
theorem normalise_not_idem_acute :
    normalise (normalise (String.mk [Char.ofNat 0xb4])) ≠
      normalise (String.mk [Char.ofNat 0xb4]) := by
  decide

/-! ## Stable insertion sort

Python's `sorted` is a stable sort.  `sortL` below is a stable insertion
sort: it processes the input left to right and inserts each element after
every already-placed element `y` with `le y x = true`.  For a total preorder
`le` this computes the same list as any stable sort, in particular as
`sorted(halls, key=score, reverse=True)` (with `le y x := score x ≤ score y`)
and as `sorted(set(...))` on strings. -/

def insS (le : α → α → Bool) (x : α) : List α → List α
  | [] => [x]
  | y :: ys => if le y x then y :: insS le x ys else x :: y :: ys

def sortL (le : α → α → Bool) (l : List α) : List α :=
  l.foldl (fun acc x => insS le x acc) []

theorem insS_perm (le : α → α → Bool) (x : α) (l : List α) :
    (insS le x l).Perm (x :: l) := by
  induction l with
  | nil => exact List.Perm.refl _
  | cons y ys ih =>
      unfold insS
      by_cases h : le y x
      · simp only [h, if_pos]
        exact ((ih.cons y).trans (List.Perm.swap x y ys))
      · simp only [h, if_neg, Bool.false_eq_true, not_false_iff]
        exact List.Perm.refl _

theorem foldl_insS_perm (le : α → α → Bool) (l acc : List α) :
    (l.foldl (fun acc x => insS le x acc) acc).Perm (acc ++ l) := by
  induction l generalizing acc with
  | nil => simp
  | cons x xs ih =>
      simp only [List.foldl_cons]
      have h1 := ih (insS le x acc)
      have h2 : (insS le x acc ++ xs).Perm (acc ++ x :: xs) := by
        have := (insS_perm le x acc).append_right xs
        exact this.trans (List.perm_middle.symm)
      exact h1.trans h2

theorem sortL_perm (le : α → α → Bool) (l : List α) : (sortL le l).Perm l := by
  simpa using foldl_insS_perm le l []

theorem mem_insS (le : α → α → Bool) (x a : α) (l : List α) :
    a ∈ insS le x l ↔ a = x ∨ a ∈ l := by
  rw [(insS_perm le x l).mem_iff]
  simp

theorem mem_sortL (le : α → α → Bool) (a : α) (l : List α) :
    a ∈ sortL le l ↔ a ∈ l := (sortL_perm le l).mem_iff

theorem insS_pairwise (le : α → α → Bool)
    (total : ∀ a b, le a b || le b a)
    (htrans : ∀ a b c, le a b = true → le b c = true → le a c = true)
    (x : α) (l : List α) (h : l.Pairwise (fun a b => le a b = true)) :
    (insS le x l).Pairwise (fun a b => le a b = true) := by
  induction l with
  | nil => simp [insS]
  | cons y ys ih =>
      rw [List.pairwise_cons] at h
      unfold insS
      by_cases hxy : le y x
      · simp only [hxy, if_pos]
        rw [List.pairwise_cons]
        refine ⟨?_, ih h.2⟩
        intro a ha
        rcases (mem_insS le x a ys).mp ha with rfl | ha'
        · exact hxy
        · exact h.1 a ha'
      · simp only [hxy, if_neg, Bool.false_eq_true, not_false_iff]
        rw [List.pairwise_cons]
        have hxyle : le x y := by
          rcases Bool.or_eq_true_iff.mp (total y x) with h1 | h1
          · exact absurd h1 hxy
          · exact h1
        refine ⟨?_, List.pairwise_cons.mpr h⟩
        intro a ha
        rcases List.mem_cons.mp ha with rfl | ha'
        · exact hxyle
        · exact htrans x y a hxyle (h.1 a ha')

theorem sortL_pairwise (le : α → α → Bool)
    (total : ∀ a b, le a b || le b a)
    (htrans : ∀ a b c, le a b = true → le b c = true → le a c = true)
    (l : List α) : (sortL le l).Pairwise (fun a b => le a b = true) := by
  suffices h : ∀ acc, acc.Pairwise (fun a b => le a b = true) →
      (l.foldl (fun acc x => insS le x acc) acc).Pairwise (fun a b => le a b = true) by
    exact h [] (List.Pairwise.nil)
  induction l with
  | nil => intro acc hacc; simpa using hacc
  | cons x xs ih =>
      intro acc hacc
      simp only [List.foldl_cons]
      exact ih _ (insS_pairwise le total htrans x acc hacc)

/-- `le` relation of `sorted(..., key=key, reverse=True)`: walk past `y`
while `key x ≤ key y`, so the new element lands after all elements of equal
or larger key (Python's stability). -/
def leKeyDesc (key : α → ℕ) (y x : α) : Bool := key x ≤ key y

theorem leKeyDesc_total (key : α → ℕ) :
    ∀ a b, leKeyDesc key a b || leKeyDesc key b a := by
  intro a b
  unfold leKeyDesc
  rcases Nat.le_total (key b) (key a) with h | h <;> simp [h]

theorem leKeyDesc_trans (key : α → ℕ) :
    ∀ a b c, leKeyDesc key a b = true → leKeyDesc key b c = true →
      leKeyDesc key a c = true := by
  intro a b c h1 h2
  simp only [leKeyDesc, decide_eq_true_eq] at *
  omega

theorem filter_insS_of_eq (key : α → ℕ) (c : ℕ) (x : α) (l : List α)
    (hx : key x = c) (hl : l.Pairwise (fun a b => leKeyDesc key a b = true)) :
    (insS (leKeyDesc key) x l).filter (fun z => key z == c) =
      l.filter (fun z => key z == c) ++ [x] := by
  induction l with
  | nil => simp [insS, hx]
  | cons y ys ih =>
      rw [List.pairwise_cons] at hl
      unfold insS
      by_cases hxy : leKeyDesc key y x
      · simp only [hxy, if_pos]
        rw [List.filter_cons, List.filter_cons]
        by_cases hy : key y == c
        · simp only [hy, if_pos, List.cons_append]
          rw [ih hl.2]
        · simp only [hy, Bool.false_eq_true, if_neg, not_false_iff]
          exact ih hl.2
      · simp only [hxy, if_neg, Bool.false_eq_true, not_false_iff]
        have hylt : key y < key x := by
          simp only [leKeyDesc, decide_eq_true_eq] at hxy
          omega
        have hnil : (y :: ys).filter (fun z => key z == c) = [] := by
          rw [List.filter_eq_nil_iff]
          intro a ha
          rcases List.mem_cons.mp ha with rfl | ha'
          · simp only [beq_iff_eq]
            omega
          · have := hl.1 a ha'
            simp only [leKeyDesc, decide_eq_true_eq] at this
            simp only [beq_iff_eq]
            omega
        rw [List.filter_cons]
        simp only [hx, beq_self_eq_true, if_pos, hnil]
        rfl

theorem filter_insS_of_ne (key : α → ℕ) (c : ℕ) (x : α) (l : List α)
    (hx : key x ≠ c) :
    (insS (leKeyDesc key) x l).filter (fun z => key z == c) =
      l.filter (fun z => key z == c) := by
  induction l with
  | nil => simp [insS, hx]
  | cons y ys ih =>
      unfold insS
      by_cases hxy : leKeyDesc key y x
      · simp only [hxy, if_pos]
        rw [List.filter_cons, List.filter_cons]
        by_cases hy : key y == c
        · simp only [hy, if_pos, ih]
        · simp only [hy, Bool.false_eq_true, if_neg, not_false_iff]
          exact ih
      · simp only [hxy, if_neg, Bool.false_eq_true, not_false_iff]
        rw [List.filter_cons]
        simp only [beq_iff_eq, hx, if_neg, not_false_iff]

theorem sortL_filter_key (key : α → ℕ) (c : ℕ) (l : List α) :
    (sortL (leKeyDesc key) l).filter (fun z => key z == c) =
      l.filter (fun z => key z == c) := by
  suffices h : ∀ acc, acc.Pairwise (fun a b => leKeyDesc key a b = true) →
      (l.foldl (fun acc x => insS (leKeyDesc key) x acc) acc).filter
          (fun z => key z == c) =
        acc.filter (fun z => key z == c) ++ l.filter (fun z => key z == c) by
    simpa using h [] List.Pairwise.nil
  induction l with
  | nil => intro acc _; simp
  | cons x xs ih =>
      intro acc hacc
      simp only [List.foldl_cons]
      rw [ih _ (insS_pairwise _ (leKeyDesc_total key) (leKeyDesc_trans key) x acc hacc)]
      rw [List.filter_cons]
      by_cases hx : key x == c
      · rw [filter_insS_of_eq key c x acc (by simpa using hx) hacc]
        simp only [hx, if_pos, List.append_assoc, List.singleton_append]
      · rw [filter_insS_of_ne key c x acc (by simpa using hx)]
        simp only [hx, Bool.false_eq_true, if_neg, not_false_iff]

/-- Lexicographic-by-code-point comparison on strings, as Python compares
`str` values in `sorted`. -/
def lexLeChars : List Char → List Char → Bool
  | [], _ => true
  | _ :: _, [] => false
  | a :: as, b :: bs =>
      if a.toNat < b.toNat then true
      else if b.toNat < a.toNat then false
      else lexLeChars as bs

def strLeB (a b : String) : Bool := lexLeChars a.data b.data

/-- Python `sorted(set(xs))` for strings: distinct elements in ascending
order. -/
def pySortedSet (xs : List String) : List String :=
  sortL (fun y x => strLeB y x) xs.dedup

theorem mem_pySortedSet (a : String) (xs : List String) :
    a ∈ pySortedSet xs ↔ a ∈ xs := by
  unfold pySortedSet
  rw [mem_sortL, List.mem_dedup]

/-! ## Intent detection (`processor.py` / `processor_LLM.py`)

An `IntentRule` is one `(intent_label, compiled_regex)` entry; `pattern.search`
is modelled as the pattern's matching function `String → Bool`. -/

abbrev IntentRule := String × (String → Bool)

/-- `ProcessorAgent._detect_intent` (regex-only variant): first rule whose
pattern matches wins with fixed confidence 0.9; otherwise `(None, 0.0)`. -/
def detectIntent : List IntentRule → String → Option String × ℚ
  | [], _ => (none, 0)
  | (label, pat) :: rest, t =>
      if pat t then (some label, 9/10) else detectIntent rest t

/-- Result record of `utils/llm_intent.py` (`LLMIntentResult`). -/
structure LLMIntentResult where
  intent : Option String
  confidence : ℚ
  raw_response : Option String
deriving DecidableEq, Repr

/-- `ProcessorAgent_LLM._detect_intent`: rules first (first-match-wins, fixed
0.9), then the classifier; a falsy classifier intent (None or the empty
string) yields `(None, 0.0)`. -/
def detectIntentLLM (pats : List IntentRule)
    (classify : String → List String → LLMIntentResult)
    (labels : List String) : String → Option String × ℚ :=
  fun t => go pats t
where
  go : List IntentRule → String → Option String × ℚ
    | [], t =>
        let r := classify t labels
        match r.intent with
        | some s => if s ≠ "" then (some s, r.confidence) else (none, 0)
        | none => (none, 0)
    | (label, pat) :: rest, t =>
        if pat t then (some label, 9/10) else go rest t

/-- `ProcessorAgent._map_intent_to_domain` (identical in the LLM variant). -/
def mapIntentToDomain : Option String → Option String
  | none => none
  | some intent =>
      if intent = "ask_location" ∨ intent = "ask_directions" then some "location"
      else if intent = "ask_time" then some "event_info"
      else if intent = "ask_entry_requirements" ∨ intent = "ask_course_info" then
        some "course_info"
      else if intent = "ask_fees" ∨ intent = "ask_funding" then some "fees_funding"
      else if intent = "ask_accommodation" then some "accommodation"
      else if intent = "ask_it_help" then some "it_support"
      else if intent = "ask_library" then some "library"
      else none

/-! ## Slot extraction (`_extract_slots`)

The gazetteer is `slot type → canonical value → synonym list`; both levels are
Python dicts iterated in insertion order, hence association lists here.  The
slot map under construction is likewise an insertion-ordered dict
`slot type → list of values`. -/

abbrev Gazetteer := List (String × List (String × List String))

abbrev SlotMap := List (String × List String)

/-- `found[k]` for an insertion-ordered dict. -/
def slotGet? (found : SlotMap) (k : String) : Option (List String) :=
  (found.find? (fun e => e.1 = k)).map (fun e => e.2)

/-- `found[k]` defaulting to the empty list when the key is absent. -/
def slotGetD (found : SlotMap) (k : String) : List String :=
  (slotGet? found k).getD []

/-- `found.setdefault(st, []); if c not in found[st]: found[st].append(c)` —
the body of the gazetteer loop for one matching phrase. -/
def addCanonical : SlotMap → String → String → SlotMap
  | [], st, c => [(st, [c])]
  | (k, v) :: rest, st, c =>
      if k = st then (k, if c ∈ v then v else v ++ [c]) :: rest
      else (k, v) :: addCanonical rest st c

/-- `found.setdefault(k, []); found[k].extend(vs)`. -/
def extendKey : SlotMap → String → List String → SlotMap
  | [], k, vs => [(k, vs)]
  | (k', v) :: rest, k, vs =>
      if k' = k then (k', v ++ vs) :: rest
      else (k', v) :: extendKey rest k vs

/-- The inner loop of `_extract_slots`: `for phrase in synonyms + [canonical]:
if phrase in clean_text: ...` for one gazetteer entry. -/
def slotsForEntry (t : String) (st : String) (entry : String × List String)
    (acc : SlotMap) : SlotMap :=
  (entry.2 ++ [entry.1]).foldl
    (fun acc2 phrase => if pySub phrase t then addCanonical acc2 st entry.1 else acc2)
    acc

/-- The middle loop of `_extract_slots`: all entries of one slot type. -/
def entriesFold (t st : String) (entries : List (String × List String))
    (acc : SlotMap) : SlotMap :=
  entries.foldl (fun acc2 entry => slotsForEntry t st entry acc2) acc

/-- The outer loop of `_extract_slots`: all slot types of the gazetteer. -/
def gazFold (t : String) (gaz : Gazetteer) (acc : SlotMap) : SlotMap :=
  gaz.foldl (fun acc slot => entriesFold t slot.1 slot.2 acc) acc

/-- `ProcessorAgent._extract_slots` (identical in the LLM variant).  The
free-text `place` capture (`_extract_place_phrases`, two fixed regexes over
`clean_text`) enters as the function argument `placeP`. -/
def extractSlots (gaz : Gazetteer) (placeP : String → List String)
    (t : String) : SlotMap :=
  let found := gazFold t gaz []
  let phrases := placeP t
  if phrases ≠ [] then extendKey found "place" phrases else found

/-- `ProcessorAgent._build_retrieval_query` (identical in the LLM variant). -/
def buildRetrievalQuery (clean_text : String) (domain : Option String)
    (slots : SlotMap) : String :=
  let slot_terms := (slots.map (fun e => e.2)).flatten
  let extra :=
    if domain = some "location" then "location on campus"
    else if domain = some "course_info" then "course information and entry requirements"
    else if domain = some "event_info" then "date and time"
    else ""
  let parts := [clean_text] ++
    (if slot_terms ≠ [] then [String.intercalate " | " slot_terms] else []) ++
    (if extra ≠ "" then [extra] else [])
  String.intercalate " ; " parts

/-! ## The external intent classifier (`utils/llm_intent.py`)

JSON values as Python sees them after `json.loads`; numbers are modelled as
rationals.  Operations that would raise in Python (attribute access on a
non-dict, indexing a number, `json.loads` of a non-string) are an explicit
`error` outcome. -/

inductive Json where
  | null : Json
  | bool (b : Bool) : Json
  | num (q : ℚ) : Json
  | str (s : String) : Json
  | arr (xs : List Json) : Json
  | obj (fields : List (String × Json)) : Json

/-- Python exceptions the classifier code can raise past its handlers. -/
inductive PyErr where
  | attributeErr : PyErr
  | typeErr : PyErr
  | keyErr : PyErr
  | indexErr : PyErr
deriving DecidableEq, Repr

/-- Python truthiness of a JSON value. -/
def Json.falsy : Json → Bool
  | .null => true
  | .bool b => !b
  | .num q => q = 0
  | .str s => s = ""
  | .arr xs => xs.isEmpty
  | .obj fs => fs.isEmpty

/-- Python `d.get(k)`: `None` for a missing key, `AttributeError` on a
non-dict. -/
def Json.get (j : Json) (k : String) : Except PyErr Json :=
  match j with
  | .obj fs => .ok (((fs.find? (fun e => e.1 = k)).map (fun e => e.2)).getD .null)
  | _ => .error .attributeErr

/-- Python `x[0]`. -/
def Json.index0 : Json → Except PyErr Json
  | .arr [] => .error .indexErr
  | .arr (x :: _) => .ok x
  | .str s =>
      match s.data with
      | [] => .error .indexErr
      | c :: _ => .ok (.str (String.mk [c]))
  | .obj _ => .error .keyErr
  | _ => .error .typeErr

/-- Lowercase a whole string (Python `str.lower`). -/
def pyLowerStr (s : String) : String := String.mk (pyLowerList s.data)

/-- `_safe_float(value, default)` on the JSON shapes: numbers pass through,
`float(True/False)` is 1/0, strings go through `float(s)` (the abstract
`fos`, `none` = `ValueError` → default), anything else is a `TypeError` →
default. -/
def safeFloat (fos : String → Option ℚ) (v : Json) (default : ℚ) : ℚ :=
  match v with
  | .num q => q
  | .bool b => if b then 1 else 0
  | .str s => (fos s).getD default
  | _ => default

/-- `_extract_openai_message_content`.  `parse` stands for `json.loads`
(`none` = `JSONDecodeError`); the Python-`None` returns are `Json.null`. -/
def extractContent (parse : String → Option Json) (body : String) :
    Except PyErr Json :=
  match parse body with
  | none => .ok .null
  | some parsed =>
      if parsed.falsy then .ok .null
      else do
        let choices ← parsed.get "choices"
        if choices.falsy then .ok .null
        else do
          let c0 ← choices.index0
          let m0 ← c0.get "message"
          let message := if m0.falsy then Json.obj [] else m0
          message.get "content"

/-- `OpenAICompatibleIntentClassifier.classify_intent`.  `http` is the
outcome of the `urlopen` call: `none` covers `HTTPError`, `URLError` and
`TimeoutError` (all swallowed by the code), `some body` is the decoded
response body.  `parse` is `json.loads`, `fos` is `float` on strings. -/
def classifyIntent (http : Option String) (parse : String → Option Json)
    (fos : String → Option ℚ) (text : String) (allowed : List String) :
    Except PyErr LLMIntentResult :=
  core http parse fos (pySortedSet (allowed.filter (fun i => i ≠ "")))
where
  /-- The `if parsed:` block: `some r` means an early `return r`, `none`
  means control falls through to the mention-scan fallback. -/
  parsedAttempt (parse : String → Option Json) (fos : String → Option ℚ)
      (intents : List String) (cs : String) :
      Except PyErr (Option LLMIntentResult) :=
    match parse cs with
    | none => .ok none
    | some parsed =>
        if parsed.falsy then .ok none
        else do
          let intentV ← parsed.get "intent"
          let confV ← parsed.get "confidence"
          let conf := safeFloat fos confV 0
          match intentV with
          | .str s =>
              if s ∈ intents then .ok (some ⟨some s, conf, some cs⟩)
              else if s = "null" then .ok (some ⟨none, conf, some cs⟩)
              else .ok none
          | .null => .ok (some ⟨none, conf, some cs⟩)
          | _ => .ok none
  /-- The body of `classify_intent` once the de-duplicated sorted label list
  `intents` is computed. -/
  core (http : Option String) (parse : String → Option Json)
      (fos : String → Option ℚ) (intents : List String) :
      Except PyErr LLMIntentResult :=
    if intents.isEmpty then .ok ⟨none, 0, none⟩
    else
      match http with
      | none => .ok ⟨none, 0, none⟩
      | some body => do
          let content ← extractContent parse body
          if content.falsy then .ok ⟨none, 0, some body⟩
          else
            match content with
            | .str cs => do
                let attempt ← parsedAttempt parse fos intents cs
                match attempt with
                | some r => .ok r
                | none =>
                    match intents.find? (fun i => pySub (pyLowerStr i) (pyLowerStr cs)) with
                    | some i => .ok ⟨some i, 1/2, some cs⟩
                    | none => .ok ⟨none, 0, some cs⟩
            | _ => .error .typeErr

/-- `NullIntentClassifier.classify_intent`. -/
def nullClassify : String → List String → LLMIntentResult :=
  fun _ _ => ⟨none, 0, none⟩

/-! ## Processor output (`ProcessorAgent_LLM.process`) -/

structure Processed where
  raw_text : String
  clean_text : String
  domain : Option String
  intent : Option String
  slots : SlotMap
  retrieval_query : Option String
  conf_intent : Option ℚ
  conf_domain : Option ℚ

/-- `ProcessorAgent_LLM.process`: normalise, detect intent (rules then
classifier), map to domain, extract slots, build the retrieval query, and
report the confidence pair (`0.9`/classifier-supplied/`0.0` for intent,
`0.8` if a domain resolved else `0.0`). -/
def processLLM (gaz : Gazetteer) (placeP : String → List String)
    (pats : List IntentRule)
    (classify : String → List String → LLMIntentResult)
    (text : String) : Processed :=
  let ct := normalise text
  let labels := pySortedSet (pats.map (fun r => r.1))
  let di := detectIntentLLM pats classify labels ct
  let domain := mapIntentToDomain di.1
  let slots := extractSlots gaz placeP ct
  { raw_text := text
    clean_text := ct
    domain := domain
    intent := di.1
    slots := slots
    retrieval_query := some (buildRetrievalQuery ct domain slots)
    conf_intent := some di.2
    conf_domain := some (if domain.isSome then 4/5 else 0) }

/-! ## Knowledge records (`agents/answerer.py`)

Hall records come from MongoDB as free-form dicts; the code reads every field
with `.get`, so each field is an `Option` here (`none` = missing or `None`).
Numeric price fields are `Option ℚ` — a missing, `None`, or non-numeric value
(the code's `isinstance(..., (int, float))` test) is `none`. -/

structure RoomPrice where
  year : Option String
  per_week_gbp : Option ℚ
  total_contract_gbp : Option ℚ
deriving DecidableEq, Repr

structure RoomType where
  name : Option String
  ensuite : Option Bool
  tenancy_weeks : Option ℕ
  prices : Option (List RoomPrice)
deriving DecidableEq, Repr

structure Hall where
  name : Option String
  short_description : Option String
  address : Option String
  catering_type : Option String
  tags : Option (List String)
  lifestyle_tags : Option (List String)
  facilities : Option (List String)
  room_features_common : Option (List String)
  services : Option (List String)
  room_types : Option (List RoomType)
  official_url : Option String
  contact_email : Option String
  contact_phone : Option String
deriving DecidableEq, Repr

def pyStrip (s : String) : String := String.mk (pyStripList s.data)

def pyRStrip (s : String) : String :=
  String.mk ((List.dropWhile pyIsSpace s.data.reverse).reverse)

/-- Python `f"{x}"` over an optional string: `None` prints as `"None"`. -/
def optStr : Option String → String
  | some s => s
  | none => "None"

/-- `f"£{q:.2f}"`'s numeral.  (Python rounds half to even; no claim inspects
this rendering, every record a theorem evaluates carries no numeric price.) -/
def fmt2 (q : ℚ) : String :=
  let cents : ℤ := Int.floor (q * 100 + 1/2)
  let whole := cents / 100
  let frac := (cents % 100).natAbs
  toString whole ++ "." ++ (if frac < 10 then "0" else "") ++ toString frac

/-- The price string of one room type inside `_format_prices`: empty when
there are no price entries, otherwise built from the LAST entry; only when
both amounts are numeric does the full `year: £../week, £.. total` form
appear, otherwise `f"{year}".strip()`. -/
def roomPriceStr (rt : RoomType) : String :=
  match (rt.prices.getD []).getLast? with
  | none => ""
  | some p =>
      let year := p.year.getD ""
      match p.per_week_gbp, p.total_contract_gbp with
      | some pw, some tot =>
          year ++ ": £" ++ fmt2 pw ++ "/week, £" ++ fmt2 tot ++ " total"
      | _, _ => pyStrip year

/-- One line of `_format_prices`. -/
def formatRoomLine (rt : RoomType) : String :=
  let rtName := rt.name.getD "Room"
  let ens := if rt.ensuite.getD false then "En-suite" else "Shared bathroom"
  let tstr :=
    match rt.tenancy_weeks with
    | some n => if n ≠ 0 then toString n ++ " weeks" else ""
    | none => ""
  let pstr := roomPriceStr rt
  let line := "- " ++ rtName ++ " (" ++ ens ++
    (if tstr ≠ "" then ", " ++ tstr else "") ++ ")"
  if pstr ≠ "" then line ++ " — " ++ pstr else line

/-- `_format_prices`. -/
def formatPrices (roomTypes : List RoomType) : String :=
  if roomTypes.isEmpty then "No room pricing data available."
  else String.intercalate "\n" (roomTypes.map formatRoomLine)

/-- `s or '—'`. -/
def orDash (s : String) : String := if s = "" then "—" else s

def renderedName (h : Hall) : String := h.name.getD "Hall"

def renderedShort (h : Hall) : String := pyStrip (h.short_description.getD "")

def renderedAddress (h : Hall) : String := orDash (pyStrip (h.address.getD ""))

def renderedCatering (h : Hall) : String := orDash (pyStrip (h.catering_type.getD ""))

def renderedTags (h : Hall) : String :=
  orDash (String.intercalate ", " (h.tags.getD []))

def renderedLifestyle (h : Hall) : String :=
  orDash (String.intercalate ", " (h.lifestyle_tags.getD []))

def renderedFacilities (h : Hall) : String :=
  orDash (String.intercalate ", " (h.facilities.getD []))

def renderedRoomFeatures (h : Hall) : String :=
  orDash (String.intercalate ", " (h.room_features_common.getD []))

def renderedServices (h : Hall) : String :=
  orDash (String.intercalate "; " (h.services.getD []))

def renderedEmail (h : Hall) : String := orDash (pyStrip (h.contact_email.getD ""))

def renderedPhone (h : Hall) : String := orDash (pyStrip (h.contact_phone.getD ""))

def renderedUrl (h : Hall) : String := orDash (pyStrip (h.official_url.getD ""))

/-- `_format_hall_answer`. -/
def formatHallAnswer (h : Hall) : String :=
  "**" ++ renderedName h ++ "**\n" ++
  renderedShort h ++ "\n\n" ++
  "**Address:** " ++ renderedAddress h ++ "\n" ++
  "**Catering:** " ++ renderedCatering h ++ "\n" ++
  "**Tags:** " ++ renderedTags h ++ "\n" ++
  "**Lifestyle:** " ++ renderedLifestyle h ++ "\n\n" ++
  "**Facilities:** " ++ renderedFacilities h ++ "\n" ++
  "**Common room features:** " ++ renderedRoomFeatures h ++ "\n" ++
  "**Cleaning/services:** " ++ renderedServices h ++ "\n\n" ++
  "**Room types & prices:**\n" ++ formatPrices (h.room_types.getD []) ++ "\n\n" ++
  "**Contact:** " ++ renderedEmail h ++ " | " ++ renderedPhone h ++ "\n" ++
  "**Official page:** " ++ renderedUrl h ++ "\n"

/-! ## The answerer (`answerer.answer`) -/

/-- `_looks_like_accommodation`: keyword scan over `_norm(text)`. -/
def accommodationKeywords : List String :=
  ["accommodation", "accomodation", "hall", "halls", "room", "rooms",
   "ensuite", "en-suite", "en suite",
   "self catered", "self-catered", "catered",
   "tenancy", "contract", "deposit", "rent", "price", "cost", "per week",
   "shared bathroom", "laundry", "laundrette",
   "kitchen", "wardrobe", "desk", "wifi"]

def looksLikeAccommodation (text : String) : Bool :=
  accommodationKeywords.any (fun k => pySub k (pyNorm text))

/-- `_hall_name_in_text`. -/
def hallNameInText (halls : List Hall) (text : String) : Bool :=
  let t := pyNorm text
  halls.any (fun h =>
    let name := pyNorm (h.name.getD "")
    name ≠ "" && pySub name t)

/-- The per-hall test of `_find_halls_by_name` (against the already
normalised text `t`): nonempty normalised name, substring either way, or a
token of `t` of length ≥ 4 occurring in the name. -/
def hallNameMatch (t : String) (h : Hall) : Bool :=
  let name := pyNorm (h.name.getD "")
  if name = "" then false
  else if pySub name t || pySub t name then true
  else ((pySplitWs t).filter (fun tok => 4 ≤ tok.length)).any
    (fun tok => pySub tok name)

/-- `_find_halls_by_name`. -/
def findHallsByName (halls : List Hall) (text : String) : List Hall :=
  let t := pyNorm text
  if t = "" then [] else halls.filter (hallNameMatch t)

/-- The `wanted_tags` accumulation of `answer`. -/
def wantedTags (q : String) : List String :=
  (if ["budget", "cheap", "affordable"].any (fun w => pySub w q) then
    ["budget"] else []) ++
  (if ["close", "near", "distance", "campus"].any (fun w => pySub w q) then
    ["close_to_campus"] else []) ++
  (if pySub "social" q then ["social"] else []) ++
  (if ["undergraduate", "first year", "first-year"].any (fun w => pySub w q) then
    ["undergraduate"] else [])

/-- The local `score` of `answer`: how many wanted tags hit the hall's
normalised tag or lifestyle-tag set. -/
def scoreHall (wanted : List String) (h : Hall) : ℕ :=
  let hallTags := (h.tags.getD []).map pyNorm
  let lifeTags := (h.lifestyle_tags.getD []).map pyNorm
  (wanted.filter (fun t => hallTags.contains t || lifeTags.contains t)).length

structure SourceEntry where
  title : Option String
  url : Option String
  snippet : String
deriving DecidableEq, Repr

/-- The `debug` dict of `AnswererOutput`, as a record: the three fields set
up front plus the branch-specific keys (`none` = key absent). -/
structure DebugInfo where
  domain : Option String
  intent : Option String
  hall_count : ℕ
  reason : Option String
  strategy : Option String
  matched_hall : Option (Option String)
  wanted_tags : Option (List String)
deriving DecidableEq, Repr

structure AnswererOutput where
  raw_text : String
  clean_text : String
  domain : Option String
  intent : Option String
  answer : String
  sources : List SourceEntry
  confidence : ℚ
  debug : DebugInfo
deriving DecidableEq, Repr

def msgUndetermined : String :=
  "I couldn’t determine the topic of your question (domain). Try asking about accommodation, fees, course information, entry requirements, directions, IT support, or the library."

def msgUnsupported : String :=
  "I can answer accommodation questions right now. Other knowledge domains haven’t been loaded into MongoDB yet."

def msgNoData : String :=
  "I couldn’t find any accommodation entries in the database yet."

/-- One shortlist source dict. -/
def mkSource (h : Hall) : SourceEntry :=
  ⟨h.name, h.official_url, pyTake (h.short_description.getD "") 240⟩

/-- The four `lines.append(...)` entries per shortlisted hall. -/
def shortlistLines (top : List Hall) : List String :=
  top.flatMap (fun h =>
    ["- **" ++ optStr h.name ++ "** — " ++
       pyRStrip (pyTake (h.short_description.getD "") 140) ++ "…",
     "  Tags: " ++ String.intercalate ", " (h.tags.getD []) ++
       " | Lifestyle: " ++ String.intercalate ", " (h.lifestyle_tags.getD []),
     "  Official page: " ++ h.official_url.getD "",
     ""])

/-- `0.6 * intent_confidence + 0.4 * domain_confidence` (with the
`or 0.0` fallbacks of `answer`). -/
def answerBase (p : Processed) : ℚ :=
  3/5 * (p.conf_intent.getD 0) + 2/5 * (p.conf_domain.getD 0)

/-- The domain after the keyword / hall-name inference fallback of
`answer`. -/
def answerDomain (p : Processed) (halls : List Hall) : Option String :=
  match p.domain with
  | some d => some d
  | none =>
      if looksLikeAccommodation p.clean_text || hallNameInText halls p.clean_text
      then some "accommodation" else none

/-- The `combined` text of `answer`: clean text, all slot values, and the
retrieval query (`processed.get("retrieval_query") or clean_text`), joined
with spaces. -/
def answerCombined (p : Processed) : String :=
  let rq := match p.retrieval_query with
    | some s => if s = "" then p.clean_text else s
    | none => p.clean_text
  String.intercalate " "
    ([p.clean_text] ++ (p.slots.map (fun e => e.2)).flatten ++ [rq])

/-- The accommodation path of `answer`: named-hall detail answer, else
tag-scored shortlist, else the no-data message. -/
def answerAccom (p : Processed) (halls : List Hall) : AnswererOutput :=
  let combined := answerCombined p
  match findHallsByName halls combined with
  | hall :: _ =>
      { raw_text := p.raw_text, clean_text := p.clean_text
        domain := some "accommodation", intent := p.intent
        answer := formatHallAnswer hall
        sources := [⟨some (hall.name.getD "Accommodation"),
          hall.official_url, pyTake (hall.short_description.getD "") 240⟩]
        confidence := min 1 (answerBase p + 1/4)
        debug := ⟨some "accommodation", p.intent, halls.length, none,
          some "hall_name_match", some hall.name, none⟩ }
  | [] =>
      let wanted := wantedTags (pyNorm combined)
      let top := (sortL (leKeyDesc (scoreHall wanted)) halls).take 3
      if top.isEmpty then
        { raw_text := p.raw_text, clean_text := p.clean_text
          domain := some "accommodation", intent := p.intent
          answer := msgNoData, sources := []
          confidence := max (1/10) (answerBase p)
          debug := ⟨some "accommodation", p.intent, halls.length, none,
            some "no_data", none, none⟩ }
      else
        { raw_text := p.raw_text, clean_text := p.clean_text
          domain := some "accommodation", intent := p.intent
          answer := pyStrip (String.intercalate "\n"
            (["Here are a few accommodation options I found:\n"] ++
              shortlistLines top))
          sources := top.map mkSource
          confidence := min 1 (answerBase p + 3/20)
          debug := ⟨some "accommodation", p.intent, halls.length, none,
            some "shortlist", none, some wanted⟩ }

/-- `answerer.answer(processed)`, with the store snapshot `halls` standing
for `_get_all_halls()`. -/
def answerFun (p : Processed) (halls : List Hall) : AnswererOutput :=
  match answerDomain p halls with
  | none =>
      { raw_text := p.raw_text, clean_text := p.clean_text
        domain := none, intent := p.intent
        answer := msgUndetermined, sources := []
        confidence := max (1/10) (answerBase p)
        debug := ⟨none, p.intent, halls.length,
          some "domain_none_after_fallback", none, none, none⟩ }
  | some d =>
      if d ≠ "accommodation" then
        { raw_text := p.raw_text, clean_text := p.clean_text
          domain := some d, intent := p.intent
          answer := msgUnsupported, sources := []
          confidence := max (1/10) (answerBase p)
          debug := ⟨some d, p.intent, halls.length,
            some "domain_not_supported_yet", none, none, none⟩ }
      else answerAccom p halls

/-! ## C4: rule matching is first-match-wins and classifier-independent -/

/-- C4: for every rule list with a matching rule, both `_detect_intent`
variants return the first matching rule's label (in list order) with the
fixed confidence 0.9, and the LLM variant's result does not depend on the
classifier, which is only consulted when no rule matches. -/
theorem detect_intent_first_match (pats : List IntentRule) (t : String)
    (lp : IntentRule) (hfind : pats.find? (fun r => r.2 t) = some lp) :
    detectIntent pats t = (some lp.1, 9/10) ∧
    ∀ (classify : String → List String → LLMIntentResult) (labels : List String),
      detectIntentLLM pats classify labels t = (some lp.1, 9/10) := by
  induction pats with
  | nil => simp at hfind
  | cons hd rest ih =>
      by_cases h : hd.2 t
      · have hfind2 : some hd = some lp := by
          rw [← hfind]; simp [List.find?_cons, h]
        have : hd = lp := by injection hfind2
        subst this
        constructor
        · rcases hd with ⟨label, pat⟩
          have h' : pat t = true := h
          simp only [detectIntent, h', if_pos]
        · intro classify labels
          rcases hd with ⟨label, pat⟩
          have h' : pat t = true := h
          simp only [detectIntentLLM, detectIntentLLM.go, h', if_pos]
      · have hfind2 : List.find? (fun r => r.2 t) rest = some lp := by
          rw [← hfind]; simp [List.find?_cons, h]
        rcases ih hfind2 with ⟨ih1, ih2⟩
        constructor
        · rcases hd with ⟨label, pat⟩
          have h' : ¬ pat t = true := h
          simp only [detectIntent, h', if_neg, not_false_iff]
          exact ih1
        · intro classify labels
          rcases hd with ⟨label, pat⟩
          have h' : ¬ pat t = true := h
          have hrest := ih2 classify labels
          simp only [detectIntentLLM, detectIntentLLM.go, h', if_neg, not_false_iff]
          simpa [detectIntentLLM] using hrest

/-- C4 witness: one always-matching rule (a regex such as `.*`); the regex
variant and the LLM variant with the null classifier both return it with
confidence 0.9. -/
theorem detect_intent_first_match_witness :
    detectIntent [("ask_time", fun _ => true)] "x" = (some "ask_time", 9/10) ∧
    detectIntentLLM [("ask_time", fun _ => true)] nullClassify [] "x" =
      (some "ask_time", 9/10) := by
  have h := detect_intent_first_match [("ask_time", fun _ => true)] "x"
    ("ask_time", fun _ => true) rfl
  exact ⟨h.1, h.2 nullClassify []⟩

/-! ## C9: classifier label safety and silent degradation -/

theorem exceptBind_err {ε α β : Type} (e : ε) (f : α → Except ε β) :
    (Except.error e : Except ε α) >>= f = Except.error e := rfl

theorem exceptBind_ok {ε α β : Type} (a : α) (f : α → Except ε β) :
    (Except.ok a : Except ε α) >>= f = f a := rfl

theorem parsedAttempt_intent_allowed (parse : String → Option Json)
    (fos : String → Option ℚ) (intents : List String) (cs : String)
    (r : LLMIntentResult)
    (h : classifyIntent.parsedAttempt parse fos intents cs = .ok (some r)) :
    r.intent = none ∨ ∃ s, r.intent = some s ∧ s ∈ intents := by
  unfold classifyIntent.parsedAttempt at h
  split at h
  · simp at h
  · rename_i parsed _
    split at h
    · simp at h
    · rcases hg : parsed.get "intent" with e | intentV
      · rw [hg, exceptBind_err] at h; simp at h
      · rw [hg, exceptBind_ok] at h
        rcases hc : parsed.get "confidence" with e | confV
        · rw [hc, exceptBind_err] at h; simp at h
        · rw [hc, exceptBind_ok] at h
          split at h
          · rename_i s
            split at h
            · rename_i hmem
              simp only [Except.ok.injEq, Option.some.injEq] at h
              right
              exact ⟨s, by rw [← h], hmem⟩
            · split at h
              · simp only [Except.ok.injEq, Option.some.injEq] at h
                left
                rw [← h]
              · simp at h
          · simp only [Except.ok.injEq, Option.some.injEq] at h
            left
            rw [← h]
          · simp at h

theorem classify_core_intent (http : Option String)
    (parse : String → Option Json) (fos : String → Option ℚ)
    (intents : List String) (r : LLMIntentResult)
    (h : classifyIntent.core http parse fos intents = .ok r) :
    r.intent = none ∨ ∃ s, r.intent = some s ∧ s ∈ intents := by
  unfold classifyIntent.core at h
  split at h
  · simp only [Except.ok.injEq] at h
    left; rw [← h]
  · split at h
    · simp only [Except.ok.injEq] at h
      left; rw [← h]
    · rename_i body
      rcases he : extractContent parse body with e | content
      · rw [he, exceptBind_err] at h; simp at h
      · rw [he, exceptBind_ok] at h
        split at h
        · simp only [Except.ok.injEq] at h
          left; rw [← h]
        · split at h
          · rename_i cs hfal
            rcases hp : classifyIntent.parsedAttempt parse fos intents cs
                with e | att
            · rw [hp, exceptBind_err] at h; simp at h
            · rw [hp, exceptBind_ok] at h
              rcases att with _ | r'
              · have h2 : (match intents.find?
                    (fun i => pySub (pyLowerStr i) (pyLowerStr cs)) with
                  | some i =>
                      (Except.ok ⟨some i, 1/2, some cs⟩ :
                        Except PyErr LLMIntentResult)
                  | none => Except.ok ⟨none, 0, some cs⟩) = Except.ok r := h
                rcases hf : intents.find?
                    (fun i => pySub (pyLowerStr i) (pyLowerStr cs)) with _ | i
                · rw [hf] at h2
                  simp only [Except.ok.injEq] at h2
                  left; rw [← h2]
                · rw [hf] at h2
                  simp only [Except.ok.injEq] at h2
                  right
                  refine ⟨i, by rw [← h2], List.mem_of_find?_eq_some hf⟩
              · have hall := parsedAttempt_intent_allowed parse fos _ cs r' hp
                simp only [Except.ok.injEq] at h
                rw [← h]
                exact hall
          · simp at h

/-- C9: (i) whatever the transport outcome, parse function and response
shape, when `classify_intent` returns at all it returns a label from the
allowed set or no label, never anything else; (ii) on transport failure,
HTTP error or timeout (`http = none`) it returns `(None, 0.0)` without
raising; (iii) on an unparsable response body it returns `(None, 0.0)`
without raising. -/
theorem classify_intent_safe :
    (∀ (http : Option String) (parse : String → Option Json)
        (fos : String → Option ℚ) (text : String) (allowed : List String)
        (r : LLMIntentResult),
        classifyIntent http parse fos text allowed = .ok r →
        r.intent = none ∨ ∃ s, r.intent = some s ∧ s ∈ allowed) ∧
    (∀ (parse : String → Option Json) (fos : String → Option ℚ)
        (text : String) (allowed : List String),
        classifyIntent none parse fos text allowed = .ok ⟨none, 0, none⟩) ∧
    (∀ (body : String) (parse : String → Option Json) (fos : String → Option ℚ)
        (text : String) (allowed : List String), parse body = none →
        ∃ raw, classifyIntent (some body) parse fos text allowed =
          .ok ⟨none, 0, raw⟩) := by
  refine ⟨?_, ?_, ?_⟩
  · intro http parse fos text allowed r h
    unfold classifyIntent at h
    rcases classify_core_intent http parse fos _ r h with h1 | ⟨s, h1, h2⟩
    · left; exact h1
    · right
      refine ⟨s, h1, ?_⟩
      rw [mem_pySortedSet] at h2
      exact (List.mem_filter.mp h2).1
  · intro parse fos text allowed
    unfold classifyIntent classifyIntent.core
    split
    · rfl
    · rfl
  · intro body parse fos text allowed hparse
    unfold classifyIntent classifyIntent.core
    split
    · exact ⟨none, rfl⟩
    · refine ⟨some body, ?_⟩
      have he : extractContent parse body = .ok .null := by
        unfold extractContent
        rw [hparse]
      simp [he, exceptBind_ok, Json.falsy]

/-- C9 witness: concrete instances — a transport failure and an unparsable
body (`parse` constantly failing) both return `(None, 0.0)`, and a returned
label is in the allowed list. -/
theorem classify_intent_safe_witness :
    classifyIntent none (fun _ => none) (fun _ => none) "hi" ["ask_fees"] =
      .ok ⟨none, 0, none⟩ ∧
    (∃ raw, classifyIntent (some "not json") (fun _ => none) (fun _ => none)
      "hi" ["ask_fees"] = .ok ⟨none, 0, raw⟩) ∧
    ((⟨none, 0, none⟩ : LLMIntentResult).intent = none ∨
      ∃ s, (⟨none, 0, none⟩ : LLMIntentResult).intent = some s ∧
        s ∈ ["ask_fees"]) := by
  refine ⟨?_, ?_, ?_⟩
  · exact classify_intent_safe.2.1 (fun _ => none) (fun _ => none) "hi" ["ask_fees"]
  · exact classify_intent_safe.2.2 "not json" (fun _ => none) (fun _ => none)
      "hi" ["ask_fees"] rfl
  · exact classify_intent_safe.1 none (fun _ => none) (fun _ => none) "hi"
      ["ask_fees"] ⟨none, 0, none⟩
      (classify_intent_safe.2.1 (fun _ => none) (fun _ => none) "hi" ["ask_fees"])

/-! ## C7: gazetteer slot extraction -/

/-- The match condition of one gazetteer entry: some phrase of
`synonyms + [canonical]` is a substring of the clean text. -/
def entryMatches (t : String) (entry : String × List String) : Bool :=
  (entry.2 ++ [entry.1]).any (fun ph => pySub ph t)

theorem slotGet?_addCanonical_other (acc : SlotMap) (st c k : String)
    (h : k ≠ st) : slotGet? (addCanonical acc st c) k = slotGet? acc k := by
  induction acc with
  | nil =>
      simp [addCanonical, slotGet?, List.find?, Ne.symm h]
  | cons e rest ih =>
      rcases e with ⟨k', v⟩
      unfold addCanonical
      by_cases hk : k' = st
      · subst hk
        simp [slotGet?, List.find?, Ne.symm h]
      · simp only [hk, if_neg, not_false_iff]
        unfold slotGet? at *
        by_cases hkk : k' = k
        · subst hkk
          simp [List.find?]
        · simp only [List.find?]
          have : (decide (k' = k)) = false := by simp [hkk]
          rw [this]
          exact ih

theorem slotGetD_addCanonical_same (acc : SlotMap) (st c : String) :
    slotGetD (addCanonical acc st c) st =
      if c ∈ slotGetD acc st then slotGetD acc st
      else slotGetD acc st ++ [c] := by
  induction acc with
  | nil => simp [addCanonical, slotGetD, slotGet?, List.find?]
  | cons e rest ih =>
      rcases e with ⟨k', v⟩
      unfold addCanonical
      by_cases hk : k' = st
      · subst hk
        simp [slotGetD, slotGet?, List.find?]
      · simp only [hk, if_neg, not_false_iff]
        unfold slotGetD slotGet? at *
        simp only [List.find?]
        have : (decide (k' = st)) = false := by simp [hk]
        rw [this]
        exact ih

theorem addCanonical_cons_ne (k' : String) (v : List String)
    (rest : SlotMap) (st c : String) (hk : ¬ k' = st) :
    addCanonical ((k', v) :: rest) st c = (k', v) :: addCanonical rest st c := by
  unfold addCanonical
  simp only [hk, if_neg, not_false_iff]
  cases rest with
  | nil => rfl
  | cons e r => rfl

theorem addCanonical_cons_eq (v : List String) (rest : SlotMap) (st c : String) :
    addCanonical ((st, v) :: rest) st c =
      (st, if c ∈ v then v else v ++ [c]) :: rest := by
  unfold addCanonical
  simp

theorem addCanonical_idem (acc : SlotMap) (st c : String) :
    addCanonical (addCanonical acc st c) st c = addCanonical acc st c := by
  induction acc with
  | nil => simp [addCanonical]
  | cons e rest ih =>
      rcases e with ⟨k', v⟩
      by_cases hk : k' = st
      · subst hk
        by_cases hc : c ∈ v <;> simp [addCanonical_cons_eq, hc]
      · rw [addCanonical_cons_ne k' v rest st c hk,
          addCanonical_cons_ne k' v _ st c hk, ih]

theorem slotsForEntry_eq (t st : String) (entry : String × List String)
    (acc : SlotMap) :
    slotsForEntry t st entry acc =
      if entryMatches t entry then addCanonical acc st entry.1 else acc := by
  unfold slotsForEntry entryMatches
  generalize entry.2 ++ [entry.1] = phrases
  induction phrases generalizing acc with
  | nil => simp
  | cons p ps ih =>
      by_cases hp : pySub p t
      · simp only [List.foldl_cons, hp, if_pos, List.any_cons, Bool.true_or]
        rw [ih (addCanonical acc st entry.1)]
        by_cases hps : ps.any (fun ph => pySub ph t)
        · simp only [hps, if_pos]
          exact addCanonical_idem acc st entry.1
        · simp only [hps, Bool.false_eq_true, if_neg, not_false_iff]
      · simp only [List.foldl_cons, hp, Bool.false_eq_true, if_neg,
          not_false_iff, List.any_cons, Bool.false_or]
        exact ih acc

theorem slotGet?_slotsForEntry_other (t st : String)
    (entry : String × List String) (acc : SlotMap) (k : String) (h : k ≠ st) :
    slotGet? (slotsForEntry t st entry acc) k = slotGet? acc k := by
  rw [slotsForEntry_eq]
  by_cases hm : entryMatches t entry
  · simp only [hm, if_pos]
    exact slotGet?_addCanonical_other acc st entry.1 k h
  · simp [hm]

theorem slotGet?_entriesFold_other (t st : String)
    (entries : List (String × List String)) (acc : SlotMap) (k : String)
    (h : k ≠ st) :
    slotGet? (entriesFold t st entries acc) k = slotGet? acc k := by
  induction entries generalizing acc with
  | nil => rfl
  | cons e es ih =>
      unfold entriesFold at *
      simp only [List.foldl_cons]
      rw [ih (slotsForEntry t st e acc)]
      exact slotGet?_slotsForEntry_other t st e acc k h

theorem slotGetD_entriesFold (t st : String)
    (entries : List (String × List String)) (acc : SlotMap)
    (hnd : (entries.map (fun e => e.1)).Nodup)
    (hout : ∀ e ∈ entries, e.1 ∉ slotGetD acc st) :
    slotGetD (entriesFold t st entries acc) st =
      slotGetD acc st ++ (entries.filter (entryMatches t)).map (fun e => e.1) := by
  induction entries generalizing acc with
  | nil => simp [entriesFold]
  | cons e es ih =>
      unfold entriesFold at *
      simp only [List.foldl_cons]
      simp only [List.map_cons, List.nodup_cons] at hnd
      by_cases hm : entryMatches t e
      · have hstep : slotGetD (slotsForEntry t st e acc) st =
            slotGetD acc st ++ [e.1] := by
          rw [slotsForEntry_eq]
          simp only [hm, if_pos]
          rw [slotGetD_addCanonical_same]
          have : e.1 ∉ slotGetD acc st := hout e (by simp)
          simp [this]
        rw [ih (slotsForEntry t st e acc) hnd.2 ?_, hstep]
        · simp only [List.filter_cons, hm, if_pos, List.map_cons,
            List.append_assoc, List.singleton_append]
        · intro e' he'
          rw [hstep]
          simp only [List.mem_append, List.mem_singleton]
          rintro (h1 | h1)
          · exact hout e' (by simp [he']) h1
          · exact hnd.1 (h1 ▸ List.mem_map_of_mem (fun x => x.1) he')
      · have hstep : slotGetD (slotsForEntry t st e acc) st = slotGetD acc st := by
          rw [slotsForEntry_eq]
          simp [hm]
        rw [ih (slotsForEntry t st e acc) hnd.2 ?_, hstep]
        · simp only [List.filter_cons, hm, Bool.false_eq_true, if_neg,
            not_false_iff]
        · intro e' he'
          rw [hstep]
          exact hout e' (by simp [he'])

theorem slotGet?_gazFold_other (t : String) (gaz : Gazetteer) (acc : SlotMap)
    (k : String) (h : k ∉ gaz.map (fun s => s.1)) :
    slotGet? (gazFold t gaz acc) k = slotGet? acc k := by
  induction gaz generalizing acc with
  | nil => rfl
  | cons slot rest ih =>
      unfold gazFold at *
      simp only [List.foldl_cons]
      simp only [List.map_cons, List.mem_cons] at h
      push_neg at h
      rw [ih (entriesFold t slot.1 slot.2 acc) h.2]
      exact slotGet?_entriesFold_other t slot.1 slot.2 acc k h.1

theorem slotGetD_gazFold (t : String) (gaz : Gazetteer) (acc : SlotMap)
    (st : String) (entries : List (String × List String))
    (hkeys : (gaz.map (fun s => s.1)).Nodup)
    (hmem : (st, entries) ∈ gaz)
    (hnd : (entries.map (fun e => e.1)).Nodup)
    (hacc : slotGetD acc st = []) :
    slotGetD (gazFold t gaz acc) st =
      (entries.filter (entryMatches t)).map (fun e => e.1) := by
  induction gaz generalizing acc with
  | nil => simp at hmem
  | cons slot rest ih =>
      simp only [List.map_cons, List.nodup_cons] at hkeys
      unfold gazFold at *
      simp only [List.foldl_cons]
      rcases List.mem_cons.mp hmem with heq | hrest
      · have hs1 : slot.1 = st := by rw [← heq]
        have hs2 : slot.2 = entries := by rw [← heq]
        subst hs1
        have hother := slotGet?_gazFold_other t rest
          (entriesFold t slot.1 slot.2 acc) slot.1 hkeys.1
        unfold gazFold at hother
        unfold slotGetD
        rw [hother]
        have hstep := slotGetD_entriesFold t slot.1 slot.2 acc
          (by rw [hs2]; exact hnd)
          (by intro e _; rw [hacc]; simp)
        unfold slotGetD at hstep
        rw [hstep]
        have hacc2 : (slotGet? acc slot.1).getD [] = [] := hacc
        rw [hacc2, hs2]
        simp
      · have hne : st ≠ slot.1 := by
          intro he
          exact hkeys.1 (he ▸ List.mem_map_of_mem (fun s => s.1) hrest)
        apply ih (entriesFold t slot.1 slot.2 acc) hkeys.2 hrest
        unfold slotGetD
        rw [slotGet?_entriesFold_other t slot.1 slot.2 acc st hne]
        exact hacc

theorem slotGet?_extendKey_other (acc : SlotMap) (key k : String)
    (vs : List String) (h : k ≠ key) :
    slotGet? (extendKey acc key vs) k = slotGet? acc k := by
  induction acc with
  | nil => simp [extendKey, slotGet?, List.find?, Ne.symm h]
  | cons e rest ih =>
      rcases e with ⟨k', v⟩
      unfold extendKey
      by_cases hk : k' = key
      · subst hk
        simp [slotGet?, List.find?, Ne.symm h]
      · simp only [hk, if_neg, not_false_iff]
        unfold slotGet? at *
        simp only [List.find?]
        by_cases hkk : k' = k
        · subst hkk; simp
        · have : (decide (k' = k)) = false := by simp [hkk]
          rw [this]
          exact ih

theorem slotGetD_extendKey_same (acc : SlotMap) (key : String)
    (vs : List String) :
    slotGetD (extendKey acc key vs) key = slotGetD acc key ++ vs := by
  induction acc with
  | nil => simp [extendKey, slotGetD, slotGet?, List.find?]
  | cons e rest ih =>
      rcases e with ⟨k', v⟩
      unfold extendKey
      by_cases hk : k' = key
      · subst hk
        simp [slotGetD, slotGet?, List.find?]
      · simp only [hk, if_neg, not_false_iff]
        unfold slotGetD slotGet? at *
        simp only [List.find?]
        have : (decide (k' = key)) = false := by simp [hk]
        rw [this]
        exact ih

/-- C7: for every gazetteer (with Python-dict keys, hence no duplicate slot
types or canonical values, and `place` not a gazetteer slot type) and every
clean text, the slot map records under each gazetteer slot type exactly the
canonical values (never alias text) one of whose phrases (canonical or alias)
is a substring of the clean text — unique, in gazetteer iteration order —
while the `place` slot holds exactly the raw captured phrases, not
canonicalized and not de-duplicated. -/
theorem extract_slots_canonical (gaz : Gazetteer)
    (placeP : String → List String) (t : String)
    (hkeys : (gaz.map (fun s => s.1)).Nodup)
    (hplace : "place" ∉ gaz.map (fun s => s.1)) :
    (∀ st entries, (st, entries) ∈ gaz → (entries.map (fun e => e.1)).Nodup →
      slotGetD (extractSlots gaz placeP t) st =
        (entries.filter (entryMatches t)).map (fun e => e.1) ∧
      (slotGetD (extractSlots gaz placeP t) st).Nodup) ∧
    slotGetD (extractSlots gaz placeP t) "place" = placeP t := by
  constructor
  · intro st entries hmem hnd
    have hstne : st ≠ "place" := by
      intro he
      exact hplace (he ▸ List.mem_map_of_mem (fun s => s.1) hmem)
    have hfound : slotGetD (gazFold t gaz []) st =
        (entries.filter (entryMatches t)).map (fun e => e.1) :=
      slotGetD_gazFold t gaz [] st entries hkeys hmem hnd rfl
    have hext : slotGetD (extractSlots gaz placeP t) st =
        slotGetD (gazFold t gaz []) st := by
      unfold extractSlots
      by_cases hp : placeP t ≠ []
      · rw [if_pos hp]
        unfold slotGetD
        rw [slotGet?_extendKey_other _ "place" st _ hstne]
      · rw [if_neg hp]
    refine ⟨hext.trans hfound, ?_⟩
    rw [hext.trans hfound]
    have hsub : ((entries.filter (entryMatches t)).map (fun e => e.1)).Sublist
        (entries.map (fun e => e.1)) :=
      List.Sublist.map _ (List.filter_sublist _)
    exact hnd.sublist hsub
  · have hfound : slotGet? (gazFold t gaz []) "place" = none := by
      rw [slotGet?_gazFold_other t gaz [] "place" hplace]
      rfl
    unfold extractSlots
    by_cases hp : placeP t ≠ []
    · rw [if_pos hp]
      rw [slotGetD_extendKey_same]
      unfold slotGetD
      rw [hfound]
      simp
    · rw [if_neg hp]
      rw [not_not] at hp
      unfold slotGetD
      rw [hfound, hp]
      rfl

/-- C7 witness: a one-type gazetteer and a capture function at the concrete
text `"where is the lib"`: the alias `"lib"` fires and records the canonical
`"library"`, the `place` slot holds the raw phrase. -/
theorem extract_slots_canonical_witness :
    slotGetD (extractSlots [("building", [("library", ["lib", "the lib"])])]
      (fun s => if s = "where is the lib" then ["the lib"] else [])
      "where is the lib") "building" = ["library"] ∧
    slotGetD (extractSlots [("building", [("library", ["lib", "the lib"])])]
      (fun s => if s = "where is the lib" then ["the lib"] else [])
      "where is the lib") "place" = ["the lib"] := by
  have h := extract_slots_canonical
    [("building", [("library", ["lib", "the lib"])])]
    (fun s => if s = "where is the lib" then ["the lib"] else [])
    "where is the lib" (by decide) (by decide)
  refine ⟨?_, ?_⟩
  · exact ((h.1 "building" [("library", ["lib", "the lib"])] (by decide)
      (by decide)).1).trans (by decide)
  · exact h.2.trans (by decide)

/-! ## Answerer branch lemmas -/

theorem answerFun_eq_accom (p : Processed) (halls : List Hall)
    (h : answerDomain p halls = some "accommodation") :
    answerFun p halls = answerAccom p halls := by
  unfold answerFun
  rw [h]
  simp

theorem answerFun_confidence_cases (p : Processed) (halls : List Hall) :
    (answerFun p halls).confidence = max (1/10) (answerBase p) ∨
    (answerFun p halls).confidence = min 1 (answerBase p + 1/4) ∨
    (answerFun p halls).confidence = min 1 (answerBase p + 3/20) := by
  simp only [answerFun, answerAccom]
  split
  · left; rfl
  · split
    · left; rfl
    · split
      · right; left; rfl
      · split
        · left; rfl
        · right; right; rfl

/-! ## C10: every terminal state has confidence at least 0.1 -/

/-- C10: whenever the processed input's intent and domain confidence
components are non-negative, `answer()` returns confidence ≥ 0.1 in every
terminal state. -/
theorem answer_confidence_floor (p : Processed) (halls : List Hall)
    (hi : 0 ≤ p.conf_intent.getD 0) (hd : 0 ≤ p.conf_domain.getD 0) :
    1/10 ≤ (answerFun p halls).confidence := by
  have hbase : 0 ≤ answerBase p := by
    unfold answerBase
    have h1 : (0:ℚ) ≤ 3/5 * p.conf_intent.getD 0 :=
      mul_nonneg (by norm_num) hi
    have h2 : (0:ℚ) ≤ 2/5 * p.conf_domain.getD 0 :=
      mul_nonneg (by norm_num) hd
    linarith
  rcases answerFun_confidence_cases p halls with h | h | h <;> rw [h]
  · exact le_max_left _ _
  · exact le_min (by norm_num) (by linarith)
  · exact le_min (by norm_num) (by linarith)

/-- C10 witness: a processed input with zero confidences and an empty store
reaches the Undetermined state with confidence exactly 0.1 ≥ 0.1. -/
theorem answer_confidence_floor_witness :
    0 ≤ (Option.some (0:ℚ)).getD 0 ∧
    1/10 ≤ (answerFun ⟨"", "", none, none, [], none, some 0, some 0⟩ []).confidence :=
  ⟨by norm_num,
   answer_confidence_floor ⟨"", "", none, none, [], none, some 0, some 0⟩ []
     (by norm_num) (by norm_num)⟩

/-! ## C2: empty store and the NoData state -/

/-- C2 counterexample: with an empty store but resolved domain `"library"`,
`answer()` terminates in the Unsupported state (reason
`domain_not_supported_yet`), not in NoData — so "empty store implies NoData
regardless of domain/intent" is false. -/
theorem answer_empty_store_not_nodata :
    (answerFun ⟨"q", "q", some "library", none, [], some "q",
      some (9/10), some (4/5)⟩ []).debug.strategy ≠ some "no_data" ∧
    (answerFun ⟨"q", "q", some "library", none, [], some "q",
      some (9/10), some (4/5)⟩ []).debug.reason =
        some "domain_not_supported_yet" ∧
    (answerFun ⟨"q", "q", some "library", none, [], some "q",
      some (9/10), some (4/5)⟩ []).answer = msgUnsupported := by
  refine ⟨?_, rfl, rfl⟩
  intro h
  simp [answerFun, answerDomain] at h

/-- C2 (amended): if the store is empty and the domain — resolved by the
processor or inferred by the answerer's keyword fallback — is
`accommodation`, `answer()` terminates in the NoData state: the fixed
"nothing found yet" message, empty sources, confidence
`max(0.1, base)`.  With an empty store and any other (or no) domain the
Unsupported (or Undetermined) state is reached instead. -/
theorem answer_nodata_empty_store (p : Processed)
    (hacc : answerDomain p [] = some "accommodation") :
    answerFun p [] =
      { raw_text := p.raw_text, clean_text := p.clean_text
        domain := some "accommodation", intent := p.intent
        answer := msgNoData, sources := []
        confidence := max (1/10) (answerBase p)
        debug := ⟨some "accommodation", p.intent, 0, none,
          some "no_data", none, none⟩ } := by
  rw [answerFun_eq_accom p [] hacc]
  have hf : findHallsByName [] (answerCombined p) = [] := by
    simp only [findHallsByName]
    split <;> rfl
  simp only [answerAccom]
  rw [hf]
  rfl

/-- C2 witness: a concrete processed input with resolved accommodation
domain, zero confidence and an empty store yields the NoData answer with
confidence 0.1. -/
theorem answer_nodata_empty_store_witness :
    (answerFun ⟨"", "", some "accommodation", none, [], none, none, none⟩
      []).answer = msgNoData ∧
    (answerFun ⟨"", "", some "accommodation", none, [], none, none, none⟩
      []).confidence = 1/10 := by
  have h := answer_nodata_empty_store
    ⟨"", "", some "accommodation", none, [], none, none, none⟩ rfl
  rw [h]
  refine ⟨rfl, ?_⟩
  show max (1/10) (answerBase ⟨"", "", some "accommodation", none, [],
    none, none, none⟩) = 1/10
  norm_num [answerBase]

/-! ## C5: named-hall detail answer -/

theorem filter_head_eq_find (p : α → Bool) (l : List α) (x : α) (xs : List α)
    (h : l.filter p = x :: xs) : l.find? p = some x := by
  induction l with
  | nil => simp at h
  | cons a t ih =>
      rw [List.filter_cons] at h
      by_cases hp : p a
      · rw [if_pos hp] at h
        rw [List.find?_cons_of_pos t hp]
        exact congrArg some (List.head_eq_of_cons_eq h)
      · rw [if_neg hp] at h
        rw [List.find?_cons_of_neg t hp]
        exact ih h

/-- C5: in the accommodation domain, when at least one record's name matches
the combined text (the substring-either-way / long-token test of
`_find_halls_by_name`), `answer()` enters the DetailAnswer state for the
first matching record in store order, with exactly one source entry — the
record's name as title, its official URL, the 240-character description
snippet — and confidence `min(1, base + 0.25)`. -/
theorem answer_detail (p : Processed) (halls : List Hall)
    (hall : Hall) (rest : List Hall)
    (hdom : p.domain = some "accommodation")
    (hf : findHallsByName halls (answerCombined p) = hall :: rest) :
    answerFun p halls =
      { raw_text := p.raw_text, clean_text := p.clean_text
        domain := some "accommodation", intent := p.intent
        answer := formatHallAnswer hall
        sources := [⟨some (hall.name.getD "Accommodation"), hall.official_url,
          pyTake (hall.short_description.getD "") 240⟩]
        confidence := min 1 (answerBase p + 1/4)
        debug := ⟨some "accommodation", p.intent, halls.length, none,
          some "hall_name_match", some hall.name, none⟩ } ∧
    halls.find? (hallNameMatch (pyNorm (answerCombined p))) = some hall ∧
    ∃ nm, hall.name = some nm ∧
      (answerFun p halls).sources = [⟨some nm, hall.official_url,
        pyTake (hall.short_description.getD "") 240⟩] := by
  have hacc : answerDomain p halls = some "accommodation" := by
    unfold answerDomain
    rw [hdom]
  have hmain : answerFun p halls =
      { raw_text := p.raw_text, clean_text := p.clean_text
        domain := some "accommodation", intent := p.intent
        answer := formatHallAnswer hall
        sources := [⟨some (hall.name.getD "Accommodation"), hall.official_url,
          pyTake (hall.short_description.getD "") 240⟩]
        confidence := min 1 (answerBase p + 1/4)
        debug := ⟨some "accommodation", p.intent, halls.length, none,
          some "hall_name_match", some hall.name, none⟩ } := by
    rw [answerFun_eq_accom p halls hacc]
    simp only [answerAccom]
    rw [hf]
  have hfilter : halls.filter (hallNameMatch (pyNorm (answerCombined p))) =
      hall :: rest := by
    simp only [findHallsByName] at hf
    by_cases ht : pyNorm (answerCombined p) = ""
    · rw [if_pos ht] at hf
      simp at hf
    · rw [if_neg ht] at hf
      exact hf
  have hmatch : hallNameMatch (pyNorm (answerCombined p)) hall = true := by
    have hmem : hall ∈ halls.filter (hallNameMatch (pyNorm (answerCombined p))) := by
      rw [hfilter]
      simp
    exact List.of_mem_filter hmem
  have hname : ∃ nm, hall.name = some nm := by
    cases hn : hall.name with
    | some nm => exact ⟨nm, rfl⟩
    | none =>
        exfalso
        unfold hallNameMatch at hmatch
        rw [hn] at hmatch
        simp only [Option.getD_none] at hmatch
        have hempty : pyNorm "" = "" := rfl
        rw [hempty] at hmatch
        simp at hmatch
  refine ⟨hmain, filter_head_eq_find _ halls hall rest hfilter, ?_⟩
  rcases hname with ⟨nm, hnm⟩
  refine ⟨nm, hnm, ?_⟩
  rw [hmain]
  simp [hnm]

/-- C5 witness: the Butler Court scenario — one record named
`"Butler Court"`, text mentioning it; the result is the detail answer with
exactly one source entry titled `"Butler Court"`. -/
theorem answer_detail_witness :
    (answerFun ⟨"Tell me about Butler Court", "tell me about butler court",
        some "accommodation", some "ask_accommodation", [],
        some "tell me about butler court", some (9/10), some (4/5)⟩
      [⟨some "Butler Court", some "A friendly hall.", none, none, none, none,
        none, none, none, none, some "https://bc", none, none⟩]).sources =
      [⟨some "Butler Court", some "https://bc", "A friendly hall."⟩] ∧
    (answerFun ⟨"Tell me about Butler Court", "tell me about butler court",
        some "accommodation", some "ask_accommodation", [],
        some "tell me about butler court", some (9/10), some (4/5)⟩
      [⟨some "Butler Court", some "A friendly hall.", none, none, none, none,
        none, none, none, none, some "https://bc", none, none⟩]).debug.strategy =
      some "hall_name_match" := by
  have h := answer_detail
    ⟨"Tell me about Butler Court", "tell me about butler court",
      some "accommodation", some "ask_accommodation", [],
      some "tell me about butler court", some (9/10), some (4/5)⟩
    [⟨some "Butler Court", some "A friendly hall.", none, none, none, none,
      none, none, none, none, some "https://bc", none, none⟩]
    ⟨some "Butler Court", some "A friendly hall.", none, none, none, none,
      none, none, none, none, some "https://bc", none, none⟩
    [] rfl (by decide)
  rw [h.1]
  exact ⟨by decide, rfl⟩

/-! ## C6: tag-scored shortlist -/

def shortlistWanted (p : Processed) : List String :=
  wantedTags (pyNorm (answerCombined p))

def shortlistRanked (p : Processed) (halls : List Hall) : List Hall :=
  sortL (leKeyDesc (scoreHall (shortlistWanted p))) halls

/-- C6: in the accommodation domain, when no record name matches and at
least one record exists, `answer()` returns the Shortlist of the first 3
records of the stable descending sort by wanted-tag score: the sort is a
permutation of the store, non-increasing in score, equal scores keep
collection order (the per-score sublists are untouched), every listed
record's score is ≥ every unlisted record's score, one source entry is
emitted per listed record (at most 3), and confidence is
`min(1, base + 0.15)`. -/
theorem answer_shortlist (p : Processed) (halls : List Hall)
    (hdom : p.domain = some "accommodation")
    (hf : findHallsByName halls (answerCombined p) = [])
    (hne : halls ≠ []) :
    answerFun p halls =
      { raw_text := p.raw_text, clean_text := p.clean_text
        domain := some "accommodation", intent := p.intent
        answer := pyStrip (String.intercalate "\n"
          (["Here are a few accommodation options I found:\n"] ++
            shortlistLines ((shortlistRanked p halls).take 3)))
        sources := ((shortlistRanked p halls).take 3).map mkSource
        confidence := min 1 (answerBase p + 3/20)
        debug := ⟨some "accommodation", p.intent, halls.length, none,
          some "shortlist", none, some (shortlistWanted p)⟩ } ∧
    (shortlistRanked p halls).Perm halls ∧
    (shortlistRanked p halls).Pairwise (fun a b =>
      scoreHall (shortlistWanted p) b ≤ scoreHall (shortlistWanted p) a) ∧
    (∀ c, (shortlistRanked p halls).filter
        (fun h => scoreHall (shortlistWanted p) h == c) =
      halls.filter (fun h => scoreHall (shortlistWanted p) h == c)) ∧
    (∀ a ∈ (shortlistRanked p halls).take 3,
      ∀ b ∈ (shortlistRanked p halls).drop 3,
        scoreHall (shortlistWanted p) b ≤ scoreHall (shortlistWanted p) a) ∧
    ((shortlistRanked p halls).take 3).length ≤ 3 := by
  have hacc : answerDomain p halls = some "accommodation" := by
    unfold answerDomain
    rw [hdom]
  have hPerm : (shortlistRanked p halls).Perm halls :=
    sortL_perm _ halls
  have hPair : (shortlistRanked p halls).Pairwise (fun a b =>
      scoreHall (shortlistWanted p) b ≤ scoreHall (shortlistWanted p) a) := by
    have h0 := sortL_pairwise (leKeyDesc (scoreHall (shortlistWanted p)))
      (leKeyDesc_total _) (leKeyDesc_trans _) halls
    exact h0.imp (fun h => by simpa [leKeyDesc] using h)
  have hRne : shortlistRanked p halls ≠ [] := by
    intro he
    have h2 := hPerm
    rw [he] at h2
    exact hne (List.Perm.eq_nil h2.symm)
  have htop : ¬ ((shortlistRanked p halls).take 3).isEmpty = true := by
    cases hR : shortlistRanked p halls with
    | nil => exact absurd hR hRne
    | cons r rs => simp [hR]
  constructor
  · rw [answerFun_eq_accom p halls hacc]
    simp only [answerAccom]
    rw [hf]
    simp only [shortlistRanked, shortlistWanted] at htop ⊢
    rw [if_neg htop]
  refine ⟨hPerm, hPair, ?_, ?_, ?_⟩
  · intro c
    exact sortL_filter_key (scoreHall (shortlistWanted p)) c halls
  · intro a ha b hb
    have hsplit := hPair
    rw [← List.take_append_drop 3 (shortlistRanked p halls)] at hsplit
    rw [List.pairwise_append] at hsplit
    exact hsplit.2.2 a ha b hb
  · rw [List.length_take]
    exact min_le_left _ _

/-- C6 witness: the budget scenario — two records, no name match, one record
tagged `budget`.  The shortlist lists the budget-tagged record first and one
source per listed record. -/
theorem answer_shortlist_witness :
    (answerFun ⟨"What halls are budget friendly?",
        "what halls are budget friendly?", some "accommodation",
        some "ask_accommodation", [], some "what halls are budget friendly?",
        some (9/10), some (4/5)⟩
      [⟨some "Zeta Hq", none, none, none, none, none, none, none, none,
        none, none, none, none⟩,
       ⟨some "Xyz Qrs", none, none, none, some ["budget"], none, none, none,
        none, none, none, none, none⟩]).debug.strategy = some "shortlist" ∧
    (answerFun ⟨"What halls are budget friendly?",
        "what halls are budget friendly?", some "accommodation",
        some "ask_accommodation", [], some "what halls are budget friendly?",
        some (9/10), some (4/5)⟩
      [⟨some "Zeta Hq", none, none, none, none, none, none, none, none,
        none, none, none, none⟩,
       ⟨some "Xyz Qrs", none, none, none, some ["budget"], none, none, none,
        none, none, none, none, none⟩]).sources =
      [⟨some "Xyz Qrs", none, ""⟩, ⟨some "Zeta Hq", none, ""⟩] := by
  have h := answer_shortlist
    ⟨"What halls are budget friendly?", "what halls are budget friendly?",
      some "accommodation", some "ask_accommodation", [],
      some "what halls are budget friendly?", some (9/10), some (4/5)⟩
    [⟨some "Zeta Hq", none, none, none, none, none, none, none, none,
      none, none, none, none⟩,
     ⟨some "Xyz Qrs", none, none, none, some ["budget"], none, none, none,
      none, none, none, none, none⟩]
    rfl (by decide) (by decide)
  rw [h.1]
  exact ⟨rfl, by decide⟩

/-! ## C8: formatter degradation for missing fields -/

/-- C8 counterexample: a record with a missing `short_description` is NOT
rendered with an em-dash placeholder — the short-description line of
`_format_hall_answer` is `f"{short}\n\n"` with no `or '—'` fallback, so it
renders as the empty string.  (The name likewise falls back to `"Hall"`,
not to an em-dash.) -/
theorem format_hall_short_not_dashed :
    (⟨none, none, none, none, none, none, none, none, none, none, none,
      none, none⟩ : Hall).short_description = none ∧
    renderedShort ⟨none, none, none, none, none, none, none, none, none,
      none, none, none, none⟩ = "" ∧
    ("" : String) ≠ "—" := by
  refine ⟨rfl, rfl, by decide⟩

/-- C8 (amended): the answer formatter never raises on missing record
fields: every missing descriptive field other than the name and the short
description is rendered as an em-dash placeholder (the name falls back to
`"Hall"` and the short description to the empty string); the price line of
each room type uses the chronologically last price entry, and an entry whose
per-week and total amounts are both missing renders only its (stripped)
year. -/
theorem format_hall_placeholders (h : Hall) :
    (h.address = none → renderedAddress h = "—") ∧
    (h.catering_type = none → renderedCatering h = "—") ∧
    (h.tags = none → renderedTags h = "—") ∧
    (h.lifestyle_tags = none → renderedLifestyle h = "—") ∧
    (h.facilities = none → renderedFacilities h = "—") ∧
    (h.room_features_common = none → renderedRoomFeatures h = "—") ∧
    (h.services = none → renderedServices h = "—") ∧
    (h.contact_email = none → renderedEmail h = "—") ∧
    (h.contact_phone = none → renderedPhone h = "—") ∧
    (h.official_url = none → renderedUrl h = "—") ∧
    (h.name = none → renderedName h = "Hall") ∧
    (h.short_description = none → renderedShort h = "") ∧
    (∀ (rt : RoomType) (ps : List RoomPrice) (p' : RoomPrice),
      rt.prices = some ps → ps.getLast? = some p' →
      p'.per_week_gbp = none → p'.total_contract_gbp = none →
      roomPriceStr rt = pyStrip (p'.year.getD "")) := by
  refine ⟨?_, ?_, ?_, ?_, ?_, ?_, ?_, ?_, ?_, ?_, ?_, ?_, ?_⟩
  · intro he; unfold renderedAddress; rw [he]; rfl
  · intro he; unfold renderedCatering; rw [he]; rfl
  · intro he; unfold renderedTags; rw [he]; rfl
  · intro he; unfold renderedLifestyle; rw [he]; rfl
  · intro he; unfold renderedFacilities; rw [he]; rfl
  · intro he; unfold renderedRoomFeatures; rw [he]; rfl
  · intro he; unfold renderedServices; rw [he]; rfl
  · intro he; unfold renderedEmail; rw [he]; rfl
  · intro he; unfold renderedPhone; rw [he]; rfl
  · intro he; unfold renderedUrl; rw [he]; rfl
  · intro he; unfold renderedName; rw [he]; rfl
  · intro he; unfold renderedShort; rw [he]; rfl
  · intro rt ps p' hps hlast hpw htot
    unfold roomPriceStr
    rw [hps]
    simp only [Option.getD_some]
    rw [hlast]
    show (match p'.per_week_gbp, p'.total_contract_gbp with
      | some pw, some tot => p'.year.getD "" ++ ": £" ++ fmt2 pw ++
          "/week, £" ++ fmt2 tot ++ " total"
      | _, _ => pyStrip (p'.year.getD "")) = pyStrip (p'.year.getD "")
    rw [hpw, htot]

/-- C8 witness: a record with every field missing and a room type whose only
price entry carries just a year: placeholders render, the name falls back to
`"Hall"`, the short description to `""`, and the price string is the bare
year. -/
theorem format_hall_placeholders_witness :
    renderedAddress ⟨none, none, none, none, none, none, none, none, none,
      none, none, none, none⟩ = "—" ∧
    renderedName ⟨none, none, none, none, none, none, none, none, none,
      none, none, none, none⟩ = "Hall" ∧
    renderedShort ⟨none, none, none, none, none, none, none, none, none,
      none, none, none, none⟩ = "" ∧
    roomPriceStr ⟨none, none, none, some [⟨some "2024/25", none, none⟩]⟩ =
      "2024/25" := by
  have h := format_hall_placeholders
    ⟨none, none, none, none, none, none, none, none, none, none, none,
      none, none⟩
  refine ⟨h.1 rfl, h.2.2.2.2.2.2.2.2.2.2.1 rfl, h.2.2.2.2.2.2.2.2.2.2.2.1 rfl, ?_⟩
  have hp := h.2.2.2.2.2.2.2.2.2.2.2.2
    ⟨none, none, none, some [⟨some "2024/25", none, none⟩]⟩
    [⟨some "2024/25", none, none⟩] ⟨some "2024/25", none, none⟩
    rfl rfl rfl rfl
  exact hp.trans (by decide)

/-! ## C1: confidence ranges -/

/-- The JSON text the classifier's LLM returns in the counterexample run:
a well-formed reply whose confidence field is 2. -/
def cxContent : String :=
  "\x7b\"intent\": \"ask_fees\", \"confidence\": 2\x7d"

/-- The HTTP response body wrapping `cxContent`. -/
def cxBody : String :=
  "\x7b\"choices\": [\x7b\"message\": \x7b\"content\": \"\x7b\\\"intent\\\": \\\"ask_fees\\\", \\\"confidence\\\": 2\x7d\"\x7d\x7d]\x7d"

def cxContentJson : Json :=
  .obj [("intent", .str "ask_fees"), ("confidence", .num 2)]

def cxBodyJson : Json :=
  .obj [("choices", .arr [.obj [("message",
    .obj [("content", .str cxContent)])]])]

/-- `json.loads` restricted to the two strings of the counterexample run. -/
def cxParse : String → Option Json := fun s =>
  if s = cxBody then some cxBodyJson
  else if s = cxContent then some cxContentJson
  else none

/-- The classifier as `_detect_intent` sees it in the counterexample run
(the value `classify_intent` returns on `cxBody`). -/
def cxClassifier : String → List String → LLMIntentResult :=
  fun _ _ => ⟨some "ask_fees", 2, some cxContent⟩

/-- One non-matching rule, so the classifier fallback fires. -/
def cxPats : List IntentRule := [("ask_fees", fun t => pySub "tuition fees" t)]

def cxProcessed : Processed :=
  processLLM [] (fun _ => []) cxPats cxClassifier "hi"

/-- C1 counterexample: the classifier-supplied confidence is not clamped.
The repository's own classifier, fed a response with confidence 2, returns
confidence 2; `process` then reports `ResolvedIntent` confidence 2 > 1, and
`answer()` reports confidence 38/25 > 1 in its Unsupported state. -/
theorem confidence_above_one :
    classifyIntent (some cxBody) cxParse (fun _ => none) "hi" ["ask_fees"] =
      .ok ⟨some "ask_fees", 2, some cxContent⟩ ∧
    cxProcessed.conf_intent = some 2 ∧
    ¬ (cxProcessed.conf_intent.getD 0 ≤ 1) ∧
    (answerFun cxProcessed []).confidence = 38/25 ∧
    ¬ ((answerFun cxProcessed []).confidence ≤ 1) := by
  have hconf : (answerFun cxProcessed []).confidence =
      max (1/10 : ℚ) (answerBase cxProcessed) := rfl
  have hbase : answerBase cxProcessed = 38/25 := by
    have h1 : cxProcessed.conf_intent = some 2 := rfl
    have h2 : cxProcessed.conf_domain = some (4/5) := rfl
    unfold answerBase
    rw [h1, h2]
    norm_num
  have hmax : (answerFun cxProcessed []).confidence = 38/25 := by
    rw [hconf, hbase]
    exact max_eq_right (by norm_num)
  refine ⟨rfl, rfl, by decide, hmax, ?_⟩
  rw [hmax]
  norm_num

theorem detectIntentLLM_conf_bounds (pats : List IntentRule)
    (classify : String → List String → LLMIntentResult)
    (labels : List String) (t : String)
    (hc : ∀ u ls, 0 ≤ (classify u ls).confidence ∧
      (classify u ls).confidence ≤ 1) :
    0 ≤ (detectIntentLLM pats classify labels t).2 ∧
    (detectIntentLLM pats classify labels t).2 ≤ 1 := by
  unfold detectIntentLLM
  induction pats with
  | nil =>
      simp only [detectIntentLLM.go]
      rcases hi : (classify t labels).intent with _ | s
      · constructor <;> norm_num
      · show 0 ≤ (if s ≠ "" then (some s, (classify t labels).confidence)
            else ((none : Option String), (0:ℚ))).2 ∧
          (if s ≠ "" then (some s, (classify t labels).confidence)
            else ((none : Option String), (0:ℚ))).2 ≤ 1
        by_cases hs : s ≠ ""
        · rw [if_pos hs]
          exact hc t labels
        · rw [if_neg hs]
          constructor <;> norm_num
  | cons hd rest ih =>
      rcases hd with ⟨label, pat⟩
      simp only [detectIntentLLM.go]
      by_cases hp : pat t
      · rw [if_pos hp]
        norm_num
      · rw [if_neg hp]
        exact ih

/-- C1 (amended): whenever the external classifier's confidence lies in
[0, 1] — in particular always when intent comes from a rule match (0.9) or
no match (0.0) — both the `ResolvedIntent` confidence reported by `process`
and the `AnswerResult` confidence returned by `answer()` lie in [0, 1].
Without that premise the bound fails: the code never clamps the
classifier-supplied value. -/
theorem confidence_in_unit_interval (gaz : Gazetteer)
    (placeP : String → List String) (pats : List IntentRule)
    (classify : String → List String → LLMIntentResult) (text : String)
    (halls : List Hall)
    (hc : ∀ u ls, 0 ≤ (classify u ls).confidence ∧
      (classify u ls).confidence ≤ 1) :
    (0 ≤ (processLLM gaz placeP pats classify text).conf_intent.getD 0 ∧
      (processLLM gaz placeP pats classify text).conf_intent.getD 0 ≤ 1) ∧
    (0 ≤ (answerFun (processLLM gaz placeP pats classify text) halls).confidence ∧
      (answerFun (processLLM gaz placeP pats classify text) halls).confidence ≤ 1) := by
  have hdet := detectIntentLLM_conf_bounds pats classify
    (pySortedSet (pats.map (fun r => r.1))) (normalise text) hc
  have hintent : (processLLM gaz placeP pats classify text).conf_intent.getD 0 =
      (detectIntentLLM pats classify
        (pySortedSet (pats.map (fun r => r.1))) (normalise text)).2 := rfl
  have hdomconf : (processLLM gaz placeP pats classify text).conf_domain.getD 0 =
      (if (mapIntentToDomain (detectIntentLLM pats classify
        (pySortedSet (pats.map (fun r => r.1))) (normalise text)).1).isSome
       then (4/5 : ℚ) else 0) := rfl
  refine ⟨⟨by rw [hintent]; exact hdet.1, by rw [hintent]; exact hdet.2⟩, ?_⟩
  have hbase0 : 0 ≤ answerBase (processLLM gaz placeP pats classify text) := by
    unfold answerBase
    rw [hintent, hdomconf]
    have h2 : (0:ℚ) ≤ (if (mapIntentToDomain (detectIntentLLM pats classify
        (pySortedSet (pats.map (fun r => r.1))) (normalise text)).1).isSome
       then (4/5 : ℚ) else 0) := by
      split <;> norm_num
    have h1 := hdet.1
    nlinarith
  have hbase1 : answerBase (processLLM gaz placeP pats classify text) ≤ 1 := by
    unfold answerBase
    rw [hintent, hdomconf]
    have h2 : (if (mapIntentToDomain (detectIntentLLM pats classify
        (pySortedSet (pats.map (fun r => r.1))) (normalise text)).1).isSome
       then (4/5 : ℚ) else 0) ≤ 4/5 := by
      split <;> norm_num
    have h2b : (0:ℚ) ≤ (if (mapIntentToDomain (detectIntentLLM pats classify
        (pySortedSet (pats.map (fun r => r.1))) (normalise text)).1).isSome
       then (4/5 : ℚ) else 0) := by
      split <;> norm_num
    have h1 := hdet.2
    have h1a := hdet.1
    nlinarith
  rcases answerFun_confidence_cases (processLLM gaz placeP pats classify text)
    halls with h | h | h <;> rw [h]
  · constructor
    · have := le_max_left (1/10 : ℚ) (answerBase (processLLM gaz placeP pats classify text))
      linarith
    · exact max_le (by norm_num) hbase1
  · exact ⟨le_min (by norm_num) (by linarith), min_le_left _ _⟩
  · exact ⟨le_min (by norm_num) (by linarith), min_le_left _ _⟩

/-- C1 witness: the null classifier (confidence always 0) on a concrete
text: both reported confidences lie in [0, 1]. -/
theorem confidence_in_unit_interval_witness :
    (0 ≤ (processLLM [] (fun _ => []) [] nullClassify "hi").conf_intent.getD 0 ∧
      (processLLM [] (fun _ => []) [] nullClassify "hi").conf_intent.getD 0 ≤ 1) ∧
    (0 ≤ (answerFun (processLLM [] (fun _ => []) [] nullClassify "hi") []).confidence ∧
      (answerFun (processLLM [] (fun _ => []) [] nullClassify "hi") []).confidence ≤ 1) :=
  confidence_in_unit_interval [] (fun _ => []) [] nullClassify "hi" []
    (fun _ _ => by norm_num [nullClassify])
